import Mathlib

/-!
Verification of the websocket consumer core (`channels/generic/websocket.py`):
the JSON codec used by the JSON consumer variants (`json.loads` / `json.dumps`
as wrapped by `decode_json` / `encode_json`), the connect/disconnect lifecycle
of `WebsocketConsumer` / `AsyncWebsocketConsumer` (whose bodies are identical
up to `await`, so they share one embedding), the `receive` / `send` paths, and
the `AsyncJsonWebsocketDemultiplexer` routing.

Text is modelled as `List Char`.  JSON values are modelled by `JVal`, covering
null, booleans, integers, strings, arrays and objects; float literals are
outside the model (the decoder rejects them), and the encoder performs the
`ensure_ascii=False` escaping (quote, backslash and control characters only).
-/

namespace Channels

/-- JSON values as produced by `json.loads`: objects keep their member list in
source order (Python dicts preserve insertion order; a duplicated key keeps the
last value, which `dictGet` below implements). -/
inductive JVal where
  | jnull
  | jbool (b : Bool)
  | jint (n : Int)
  | jstr (s : List Char)
  | jarr (items : List JVal)
  | jobj (fields : List (List Char × JVal))

/-- Python `d[key]` on a dict built by inserting the fields in order: the last
binding of a key wins. -/
def dictGet : List (List Char × JVal) → List Char → Option JVal
  | [], _ => none
  | (k, v) :: fs, key =>
      match dictGet fs key with
      | some r => some r
      | none => if k = key then some v else none

/-- Python `key in d`. -/
def dictHas (fs : List (List Char × JVal)) (key : List Char) : Bool :=
  fs.any (fun kv => kv.1 = key)

/-! ### Encoder (`json.dumps`, default separators `", "` and `": "`) -/

/-- Lower-case hex digit for a nibble. -/
def hexDig (n : Nat) : Char :=
  if n < 10 then Char.ofNat ('0'.toNat + n) else Char.ofNat ('a'.toNat + (n - 10))

/-- Escaping of one character inside a JSON string literal, following
`json.dumps(..., ensure_ascii=False)`: quote, backslash, the named control
escapes, and `\u00XX` for the remaining control characters. -/
def escChar (c : Char) : List Char :=
  if c = '"' then ['\\', '"']
  else if c = '\\' then ['\\', '\\']
  else if c = '\n' then ['\\', 'n']
  else if c = '\t' then ['\\', 't']
  else if c = '\r' then ['\\', 'r']
  else if c.toNat = 8 then ['\\', 'b']
  else if c.toNat = 12 then ['\\', 'f']
  else if c.toNat < 32 then ['\\', 'u', '0', '0', hexDig (c.toNat / 16), hexDig (c.toNat % 16)]
  else [c]

/-- Escape every character of a string body. -/
def escAll : List Char → List Char
  | [] => []
  | c :: cs => escChar c ++ escAll cs

/-- A rendered JSON string literal: quote, escaped body, quote. -/
def encStr (s : List Char) : List Char :=
  '"' :: (escAll s ++ ['"'])

/-- Decimal digits of a natural number, most significant first. -/
def natChars (n : Nat) : List Char :=
  if n < 10 then [Char.ofNat ('0'.toNat + n % 10)]
  else natChars (n / 10) ++ [Char.ofNat ('0'.toNat + n % 10)]
termination_by n
decreasing_by exact Nat.div_lt_self (by omega) (by omega)

/-- Decimal rendering of an integer, as Python `repr` prints `int`. -/
def intChars (i : Int) : List Char :=
  (if i < 0 then ['-'] else []) ++ natChars i.natAbs

mutual
/-- Rendering of one JSON value, with `json.dumps`'s default separators:
`", "` between array items and object members, `": "` after a key. -/
def encVal : JVal → List Char
  | .jnull => ['n', 'u', 'l', 'l']
  | .jbool true => ['t', 'r', 'u', 'e']
  | .jbool false => ['f', 'a', 'l', 's', 'e']
  | .jint n => intChars n
  | .jstr s => encStr s
  | .jarr vs => '[' :: (encItems vs ++ [']'])
  | .jobj fs => '{' :: (encFields fs ++ ['}'])
/-- Array items joined by `", "`. -/
def encItems : List JVal → List Char
  | [] => []
  | v :: vs => encVal v ++ encItemsTail vs
/-- Continuation of an item list: each further item is preceded by `", "`. -/
def encItemsTail : List JVal → List Char
  | [] => []
  | v :: vs => ',' :: ' ' :: (encVal v ++ encItemsTail vs)
/-- Object members `"key": value` joined by `", "`. -/
def encFields : List (List Char × JVal) → List Char
  | [] => []
  | (k, v) :: fs => encStr k ++ ':' :: ' ' :: (encVal v ++ encFieldsTail fs)
/-- Continuation of a member list: each further member is preceded by `", "`. -/
def encFieldsTail : List (List Char × JVal) → List Char
  | [] => []
  | (k, v) :: fs => ',' :: ' ' :: (encStr k ++ ':' :: ' ' :: (encVal v ++ encFieldsTail fs))
end

/-- The embedding of `json.dumps`. -/
def json_dumps : JVal → List Char := encVal

/-! ### Decoder (`json.loads`) -/

/-- JSON whitespace. -/
def isWsC (c : Char) : Bool := c = ' ' || c = '\t' || c = '\n' || c = '\r'

/-- Drop leading JSON whitespace. -/
def skipWs : List Char → List Char
  | [] => []
  | c :: cs => if isWsC c then skipWs cs else c :: cs

/-- Decimal digit test. -/
def isDig (c : Char) : Bool := '0' ≤ c && c ≤ '9'

/-- Split off the maximal leading run of decimal digits. -/
def takeDigs : List Char → List Char × List Char
  | [] => ([], [])
  | c :: cs =>
      if isDig c then
        let p := takeDigs cs
        (c :: p.1, p.2)
      else ([], c :: cs)

/-- Numeric value of a digit run. -/
def digitsVal (ds : List Char) : Nat :=
  ds.foldl (fun a c => a * 10 + (c.toNat - '0'.toNat)) 0

/-- True when the remaining input would extend a number literal into a float
(`.`, `e`, `E`); float literals are outside this model of the codec. -/
def floatFollows : List Char → Bool
  | [] => false
  | c :: _ => c = '.' || c = 'e' || c = 'E'

/-- Digits (and what follows) of an integer literal after an optional sign. -/
def numTail (neg : Bool) (cs : List Char) : Option (Int × List Char) :=
  let p := takeDigs cs
  if p.1 = [] then none
  else if floatFollows p.2 then none
  else some (if neg then -(digitsVal p.1 : Int) else (digitsVal p.1 : Int), p.2)

/-- Integer literal: optional minus sign, then digits. -/
def parseNumLit : List Char → Option (Int × List Char)
  | [] => numTail false []
  | c :: r => if c = '-' then numTail true r else numTail false (c :: r)

/-- Value of a hex digit (`0`-`9`, `a`-`f`, `A`-`F`), by code point. -/
def hexNib (c : Char) : Option Nat :=
  let n := c.toNat
  if 48 ≤ n ∧ n ≤ 57 then some (n - 48)
  else if 97 ≤ n ∧ n ≤ 102 then some (n - 87)
  else if 65 ≤ n ∧ n ≤ 70 then some (n - 55)
  else none

/-- The single-character escapes of JSON: the named control escapes, and
quote, backslash and slash, which stand for themselves. -/
def unesc (e : Char) : Option Char :=
  if e = 'n' then some '\n'
  else if e = 't' then some '\t'
  else if e = 'r' then some '\r'
  else if e = 'b' then some (Char.ofNat 8)
  else if e = 'f' then some (Char.ofNat 12)
  else if e = '"' ∨ e = '\\' ∨ e = '/' then some e
  else none

/-- Body of a string literal, after the opening quote; `acc` holds the
characters read so far, reversed. -/
def parseStrBody (acc : List Char) : List Char → Option (List Char × List Char)
  | '"' :: r => some (acc.reverse, r)
  | '\\' :: 'u' :: a :: b :: c :: d :: r =>
      match hexNib a, hexNib b, hexNib c, hexNib d with
      | some x, some y, some z, some w =>
          parseStrBody (Char.ofNat (((x * 16 + y) * 16 + z) * 16 + w) :: acc) r
      | _, _, _, _ => none
  | '\\' :: e :: r =>
      match unesc e with
      | some ch => parseStrBody (ch :: acc) r
      | none => none
  | c :: r => parseStrBody (c :: acc) r
  | [] => none

mutual
/-- One JSON value, fuel-bounded recursive descent. -/
def parseVal : Nat → List Char → Option (JVal × List Char)
  | 0, _ => none
  | fuel + 1, cs =>
      match skipWs cs with
      | 'n' :: 'u' :: 'l' :: 'l' :: r => some (.jnull, r)
      | 't' :: 'r' :: 'u' :: 'e' :: r => some (.jbool true, r)
      | 'f' :: 'a' :: 'l' :: 's' :: 'e' :: r => some (.jbool false, r)
      | '"' :: r =>
          match parseStrBody [] r with
          | some (s, r1) => some (.jstr s, r1)
          | none => none
      | '[' :: r =>
          match skipWs r with
          | ']' :: r1 => some (.jarr [], r1)
          | r1 =>
              match parseItems fuel r1 with
              | some (vs, r2) => some (.jarr vs, r2)
              | none => none
      | '{' :: r =>
          match skipWs r with
          | '}' :: r1 => some (.jobj [], r1)
          | r1 =>
              match parseFields fuel r1 with
              | some (fs, r2) => some (.jobj fs, r2)
              | none => none
      | c :: r =>
          if c = '-' || isDig c then
            match parseNumLit (c :: r) with
            | some (n, r1) => some (.jint n, r1)
            | none => none
          else none
      | [] => none
/-- One or more comma-separated array items, consuming the closing `]`. -/
def parseItems : Nat → List Char → Option (List JVal × List Char)
  | 0, _ => none
  | fuel + 1, cs =>
      match parseVal fuel cs with
      | none => none
      | some (v, r) =>
          match skipWs r with
          | ']' :: r1 => some ([v], r1)
          | ',' :: r1 =>
              match parseItems fuel r1 with
              | some (vs, r2) => some (v :: vs, r2)
              | none => none
          | _ => none
/-- One or more comma-separated object members, consuming the closing brace. -/
def parseFields : Nat → List Char → Option (List (List Char × JVal) × List Char)
  | 0, _ => none
  | fuel + 1, cs =>
      match skipWs cs with
      | '"' :: r =>
          match parseStrBody [] r with
          | none => none
          | some (k, r1) =>
              match skipWs r1 with
              | ':' :: r2 =>
                  match parseVal fuel r2 with
                  | none => none
                  | some (v, r3) =>
                      match skipWs r3 with
                      | '}' :: r4 => some ([(k, v)], r4)
                      | ',' :: r4 =>
                          match parseFields fuel r4 with
                          | some (fs, r5) => some ((k, v) :: fs, r5)
                          | none => none
                      | _ => none
              | _ => none
      | _ => none
end

/-- The embedding of `json.loads`: parse one value, then require only
whitespace to remain. -/
def json_loads (cs : List Char) : Option JVal :=
  match parseVal (cs.length + 1) cs with
  | some (v, r) => if skipWs r = [] then some v else none
  | none => none

/-! ### Lifecycle embedding

`WebsocketConsumer` and `AsyncWebsocketConsumer` have identical bodies up to
`await` (the sync variant bridges each `channel_layer` call with
`async_to_sync`), so one embedding covers both variants of each method. -/

/-- Outbound transport events, the dictionaries passed to the base `send`:
`websocket.accept`, `websocket.send` (text or bytes), `websocket.close`
(optionally carrying a code). -/
inductive OutMsg where
  | accept
  | sendText (t : List Char)
  | sendBytes (b : List Nat)
  | close (code : Option Int)
deriving DecidableEq

/-- Exceptions the embedded methods can raise.  `valueError` and
`invalidChannelLayerError` carry the message of the corresponding `raise`;
`jsonDecodeError` is `json.loads` failing on malformed input; `typeError` is
`json.loads(None)`. -/
inductive PyError where
  | valueError (msg : String)
  | invalidChannelLayerError (msg : String)
  | jsonDecodeError
  | typeError
deriving DecidableEq

/-- Behavior of an application `connect` hook: the outbound events it emits
itself, and whether it returns normally, raises `AcceptConnection`, or raises
`DenyConnection`. -/
inductive HookBehavior where
  | returns (emits : List OutMsg)
  | raisesAccept (emits : List OutMsg)
  | raisesDeny (emits : List OutMsg)

/-- The default `connect` hook: its body is exactly `self.accept()`, so it
emits the accept event and returns. -/
def defaultConnect : HookBehavior := .returns [.accept]

/-- Steps observable while a lifecycle method runs: pub/sub backend calls,
application hook invocations, outbound emissions, and the final
`StopConsumer` of the disconnect path. -/
inductive Action where
  | groupAdd (group chan : String)
  | groupDiscard (group chan : String)
  | hookConnect
  | hookDisconnect (code : Int)
  | emit (m : OutMsg)
  | stop
deriving DecidableEq

/-- Backend group calls are the `group_add` / `group_discard` actions. -/
def isGroupCall : Action → Bool
  | .groupAdd _ _ => true
  | .groupDiscard _ _ => true
  | _ => false

/-- Steps of the `try: self.connect() except AcceptConnection: self.accept()
except DenyConnection: self.close()` block, given the hook's behavior.
`self.close()` passes no code, hence the bare close event. -/
def connectBlock : HookBehavior → List Action
  | .returns es => Action.hookConnect :: es.map .emit
  | .raisesAccept es => Action.hookConnect :: (es.map .emit ++ [.emit .accept])
  | .raisesDeny es => Action.hookConnect :: (es.map .emit ++ [.emit (.close none)])

/-- Embedding of `websocket_connect` (sync and async variants): join each
declared group, turning a missing `group_add` attribute on the channel layer
into `InvalidChannelLayerError` (the loop body never touches the layer when
`groups` is empty), then run the `connect` hook under the accept/deny
handlers.  The result is the ordered trace of observable steps. -/
def websocket_connect (groups : List String) (supportsGroups : Bool)
    (channelName : String) (hook : HookBehavior) : Except PyError (List Action) :=
  if groups ≠ [] ∧ supportsGroups = false then
    .error (.invalidChannelLayerError "BACKEND is unconfigured or doesn't support groups")
  else
    .ok (groups.map (fun g => Action.groupAdd g channelName) ++ connectBlock hook)

/-- Embedding of `websocket_disconnect` (sync and async variants): leave each
declared group (same `AttributeError` handling as on connect), invoke the
`disconnect` hook with the close code, then `raise StopConsumer()`.
`dhook` is the list of events the application `disconnect` hook emits. -/
def websocket_disconnect (groups : List String) (supportsGroups : Bool)
    (channelName : String) (code : Int) (dhook : List OutMsg) :
    Except PyError (List Action) :=
  if groups ≠ [] ∧ supportsGroups = false then
    .error (.invalidChannelLayerError "BACKEND is unconfigured or doesn't support groups")
  else
    .ok (groups.map (fun g => Action.groupDiscard g channelName)
          ++ Action.hookDisconnect code :: (dhook.map .emit ++ [.stop]))

/-- The `close` argument of `send`: `False` (the default), `True`, or a close
code. -/
inductive SendClose where
  | noClose
  | withTrue
  | withCode (n : Int)

/-- Python truthiness of the `close` argument (`if close:`). -/
def sendCloseTruthy : SendClose → Bool
  | .noClose => false
  | .withTrue => true
  | .withCode n => decide (n ≠ 0)

/-- The event `self.close(code)` emits: a code that is neither `None` nor
`True` is sent along, otherwise the close is bare. -/
def closeEventOf : SendClose → OutMsg
  | .withCode n => .close (some n)
  | _ => .close none

/-- Embedding of `send` (sync and async variants): a text payload wins over a
bytes payload, neither raises `ValueError`, and a truthy `close` argument
triggers `self.close(close)` afterwards.  The result is the list of emitted
outbound events. -/
def consumer_send (text_data : Option (List Char)) (bytes_data : Option (List Nat))
    (close : SendClose) : Except PyError (List OutMsg) :=
  match text_data with
  | some t => .ok (OutMsg.sendText t :: if sendCloseTruthy close then [closeEventOf close] else [])
  | none =>
      match bytes_data with
      | some b => .ok (OutMsg.sendBytes b :: if sendCloseTruthy close then [closeEventOf close] else [])
      | none => .error (.valueError "You must pass one of bytes_data or text_data")

/-- Python truthiness of an optional string (`if text_data:`): `None` and the
empty string are falsy. -/
def pyStrTruthy : Option (List Char) → Bool
  | none => false
  | some t => decide (t ≠ [])

/-- Embedding of the JSON variants' `receive` (`JsonWebsocketConsumer` and
`AsyncJsonWebsocketConsumer` are identical here): a truthy `text_data` is
decoded and dispatched to `receive_json` (the returned value is the dispatched
content); otherwise `ValueError` is raised.  The unused `bytes_data` argument
is kept to mirror the signature. -/
def json_receive (text_data : Option (List Char)) (bytes_data : Option (List Nat)) :
    Except PyError JVal :=
  if pyStrTruthy text_data then
    match json_loads (text_data.getD []) with
    | some v => .ok v
    | none => .error .jsonDecodeError
  else
    .error (.valueError "No text section for incoming WebSocket frame!")

/-! ### Demultiplexer (`AsyncJsonWebsocketDemultiplexer`)

The `Demultiplexer` base class lives in `channels/generic/multiplexer.py`,
which is not part of this source tree; its `send_upstream`,
`send_to_all_upstream` and `_child_application_tasks` members are modelled
from the spec where needed. -/

/-- The characters of the `"stream"` envelope key. -/
def streamKey : List Char := ['s', 't', 'r', 'e', 'a', 'm']

/-- The characters of the `"payload"` envelope key. -/
def payloadKey : List Char := ['p', 'a', 'y', 'l', 'o', 'a', 'd']

/-- One event delivered to a child application. -/
inductive ChildEvent where
  | receiveText (t : List Char)
  | disconnect (code : Int)
deriving DecidableEq

/-- Embedding of `AsyncJsonWebsocketDemultiplexer.receive_json`: an envelope
(a dict with both a `stream` and a `payload` key) is re-encoded and handed to
`send_upstream` as a `websocket.receive` event for the stream's child — the
result carries the stream value and that child event; anything else raises
`ValueError`.  (`dictGet fields k ≠ none` is exactly Python's `k in content`.) -/
def demux_receive_json (content : JVal) : Except PyError (JVal × ChildEvent) :=
  match content with
  | .jobj fields =>
      match dictGet fields streamKey, dictGet fields payloadKey with
      | some stream, some payload =>
          .ok (stream, .receiveText (json_dumps payload))
      | _, _ =>
          .error (.valueError "Invalid multiplexed **frame received (no channel/payload key)")
  | _ => .error (.valueError "Invalid multiplexed **frame received (no channel/payload key)")

/-- Embedding of `AsyncJsonWebsocketDemultiplexer.websocket_send`, the
interception of a child's outbound send: `message.get("text")` is decoded
(`json.loads(None)` raises `TypeError` when the child sent bytes), wrapped as
`{"stream": stream_name, "payload": value}` in insertion order, and emitted
through `send_json` as this connection's own text send. -/
def demux_websocket_send (message : OutMsg) (stream_name : List Char) :
    Except PyError OutMsg :=
  match message with
  | .sendText text =>
      match json_loads text with
      | some j =>
          .ok (.sendText (json_dumps (.jobj [(streamKey, .jstr stream_name), (payloadKey, j)])))
      | none => .error .jsonDecodeError
  | _ => .error .typeError

/-- Steps observable while the demultiplexer handles a physical disconnect. -/
inductive DemuxAction where
  | childDisconnect (stream : List Char) (code : Int)
  | waitChildren (timeout : Nat) (timedOut : Bool)
  | parent (a : Action)
deriving DecidableEq

/-- The fixed child-shutdown join timeout, `application_close_timeout = 5`. -/
def application_close_timeout : Nat := 5

/-- Modelled from the spec: `send_to_all_upstream` (defined in the missing
`channels/generic/multiplexer.py`) forwards a message to every
currently-running child application, here one disconnect delivery per child in
registry order. -/
def send_to_all_upstream_disconnect (children : List (List Char)) (code : Int) :
    List DemuxAction :=
  children.map (fun s => .childDisconnect s code)

/-- Embedding of `AsyncJsonWebsocketDemultiplexer.websocket_disconnect`: fan
the disconnect out to every running child, `asyncio.wait` for the child tasks
bounded by `application_close_timeout` (a timeout is swallowed by the
`except TimeoutError: pass`, recorded here only in the `waitChildren` step's
flag), then run the inherited `websocket_disconnect` — group discards, the
parent `disconnect` hook, `StopConsumer`. -/
def demux_websocket_disconnect (children : List (List Char)) (timedOut : Bool)
    (code : Int) (groups : List String) (supportsGroups : Bool)
    (channelName : String) (dhook : List OutMsg) : Except PyError (List DemuxAction) :=
  match websocket_disconnect groups supportsGroups channelName code dhook with
  | .error e => .error e
  | .ok parentTrace =>
      .ok (send_to_all_upstream_disconnect children code
            ++ DemuxAction.waitChildren application_close_timeout timedOut
              :: parentTrace.map .parent)

/-! ### Round-trip: digits and integer literals -/

/-- The decimal digit character of `k < 10` is a digit carrying `k`, and is
none of the characters the grammar treats specially. -/
theorem digitChar_spec : ∀ k < 10,
    isDig (Char.ofNat ('0'.toNat + k)) = true
    ∧ (Char.ofNat ('0'.toNat + k)).toNat - '0'.toNat = k := by decide

/-- A digit character is not a whitespace, sign, delimiter, float marker or
keyword/string/container opener. -/
theorem isDig_ne {c : Char} (h : isDig c = true) :
    isWsC c = false ∧ c ≠ '-' ∧ c ≠ '.' ∧ c ≠ 'e' ∧ c ≠ 'E' ∧ c ≠ ']' ∧ c ≠ '}'
    ∧ c ≠ ',' ∧ c ≠ 'n' ∧ c ≠ 't' ∧ c ≠ 'f' ∧ c ≠ '"' ∧ c ≠ '[' ∧ c ≠ '{' := by
  have hne : ∀ d : Char, isDig d = false → c ≠ d := by
    intro d hd he
    subst he
    rw [h] at hd
    cases hd
  constructor
  · simp only [isDig, Bool.and_eq_true, decide_eq_true_eq] at h
    simp only [isWsC]
    have h1 : ¬ (c = ' ') := by rintro rfl; revert h; decide
    have h2 : ¬ (c = '\t') := by rintro rfl; revert h; decide
    have h3 : ¬ (c = '\n') := by rintro rfl; revert h; decide
    have h4 : ¬ (c = '\r') := by rintro rfl; revert h; decide
    simp [h1, h2, h3, h4]
  exact ⟨hne '-' (by decide), hne '.' (by decide), hne 'e' (by decide), hne 'E' (by decide),
    hne ']' (by decide), hne '}' (by decide), hne ',' (by decide), hne 'n' (by decide),
    hne 't' (by decide), hne 'f' (by decide), hne '"' (by decide), hne '[' (by decide),
    hne '{' (by decide)⟩

/-- Unfolding of `natChars` in last-digit form. -/
theorem natChars_eq (n : Nat) :
    natChars n = (if n < 10 then [] else natChars (n / 10))
        ++ [Char.ofNat ('0'.toNat + n % 10)] := by
  rw [natChars]
  by_cases h : n < 10 <;> simp [h]

/-- Digit runs are nonempty. -/
theorem natChars_ne_nil (n : Nat) : natChars n ≠ [] := by
  rw [natChars_eq]
  simp

/-- Every character of a digit run is a digit. -/
theorem natChars_digits (n : Nat) : ∀ c ∈ natChars n, isDig c = true := by
  induction n using Nat.strongRecOn with
  | ind n ih =>
    intro c hc
    rw [natChars_eq] at hc
    rcases List.mem_append.mp hc with h | h
    · by_cases h10 : n < 10
      · simp [h10] at h
      · exact ih (n / 10) (Nat.div_lt_self (by omega) (by omega)) c (by simpa [h10] using h)
    · rw [List.mem_singleton] at h
      subst h
      exact (digitChar_spec (n % 10) (Nat.mod_lt _ (by omega))).1

/-- The head of a digit run is a digit. -/
theorem natChars_cons (n : Nat) : ∃ c t, natChars n = c :: t ∧ isDig c = true := by
  match h : natChars n with
  | [] => exact absurd h (natChars_ne_nil n)
  | c :: t => exact ⟨c, t, rfl, natChars_digits n c (h ▸ List.mem_cons_self ..)⟩

/-- Reading back the digits of `n` recovers `n`. -/
theorem digitsVal_natChars (n : Nat) : digitsVal (natChars n) = n := by
  induction n using Nat.strongRecOn with
  | ind n ih =>
    rw [digitsVal, natChars_eq, List.foldl_append]
    by_cases h : n < 10
    · simp only [if_pos h, List.foldl_nil, List.foldl_cons]
      rw [(digitChar_spec (n % 10) (Nat.mod_lt _ (by omega))).2]
      omega
    · simp only [if_neg h, List.foldl_cons, List.foldl_nil]
      have := ih (n / 10) (Nat.div_lt_self (by omega) (by omega))
      rw [digitsVal] at this
      rw [this, (digitChar_spec (n % 10) (Nat.mod_lt _ (by omega))).2]
      omega

/-- Input that cannot continue an integer literal: empty, or headed by a
character that is neither a digit nor `.`, `e`, `E`.  Every position an
encoded value is followed by in encoder output qualifies. -/
def intStop : List Char → Bool
  | [] => true
  | c :: _ => !(isDig c || c = '.' || c = 'e' || c = 'E')

/-- The scanner `takeDigs` does not move past a non-digit head. -/
theorem takeDigs_stop {cs : List Char} (h : intStop cs = true) :
    takeDigs cs = ([], cs) := by
  match cs with
  | [] => rfl
  | c :: t =>
      simp only [intStop, Bool.not_eq_true', Bool.or_eq_false_iff, decide_eq_false_iff_not] at h
      simp [takeDigs, h.1.1.1]

/-- The scanner `takeDigs` consumes exactly a leading digit run. -/
theorem takeDigs_run {ds : List Char} (hds : ∀ c ∈ ds, isDig c = true)
    {rest : List Char} (hrest : intStop rest = true) :
    takeDigs (ds ++ rest) = (ds, rest) := by
  induction ds with
  | nil => simpa using takeDigs_stop hrest
  | cons c t ih =>
      have hc : isDig c = true := hds c (by simp)
      have ht := ih (fun x hx => hds x (by simp [hx]))
      simp [takeDigs, hc, ht]

/-- The test `floatFollows` is false at any integer stop. -/
theorem floatFollows_of_intStop {cs : List Char} (h : intStop cs = true) :
    floatFollows cs = false := by
  match cs with
  | [] => rfl
  | c :: t =>
      simp only [intStop, Bool.not_eq_true', Bool.or_eq_false_iff, decide_eq_false_iff_not] at h
      simp [floatFollows, h.1.1.2, h.1.2, h.2]

/-- The integer literal codec round-trip: `parseNumLit` inverts `intChars`
whenever the rest of the input cannot extend the literal. -/
theorem parseNumLit_intChars (i : Int) {rest : List Char} (hr : intStop rest = true) :
    parseNumLit (intChars i ++ rest) = some (i, rest) := by
  by_cases hi : i < 0
  · have harg : intChars i ++ rest = '-' :: (natChars i.natAbs ++ rest) := by
      simp [intChars, hi]
    rw [harg]
    simp only [parseNumLit, if_pos rfl]
    rw [numTail, takeDigs_run (natChars_digits _) hr]
    simp [natChars_ne_nil, floatFollows_of_intStop hr, digitsVal_natChars, abs_of_neg hi]
  · obtain ⟨c, t, hn, hc⟩ := natChars_cons i.natAbs
    have harg : intChars i ++ rest = c :: (t ++ rest) := by
      simp [intChars, hi, hn]
    rw [harg]
    simp only [parseNumLit, if_neg (isDig_ne hc).2.1]
    have htd : takeDigs (c :: (t ++ rest)) = (c :: t, rest) := by
      have := @takeDigs_run (natChars i.natAbs) (natChars_digits i.natAbs) rest hr
      rwa [hn, List.cons_append] at this
    have hdv : digitsVal (c :: t) = i.natAbs := by
      have := digitsVal_natChars i.natAbs
      rwa [hn] at this
    rw [numTail, htd]
    simp [floatFollows_of_intStop hr, hdv, abs_of_nonneg (by omega : (0 : Int) ≤ i)]

/-! ### Round-trip: string literals and whitespace -/

/-- Reading a rendered hex digit back recovers its value. -/
theorem hexNib_hexDig : ∀ n < 16, hexNib (hexDig n) = some n := by decide

/-- An unescaped character steps through `parseStrBody` unchanged. -/
theorem parseStrBody_plain {c : Char} (h1 : c ≠ '"') (h2 : c ≠ '\\')
    (acc r : List Char) : parseStrBody acc (c :: r) = parseStrBody (c :: acc) r := by
  rw [parseStrBody.eq_def]
  split
  · rename_i heq
    exact absurd (List.head_eq_of_cons_eq heq.symm).symm h1
  · rename_i heq
    exact absurd (List.head_eq_of_cons_eq heq.symm).symm h2
  · rename_i heq
    exact absurd (List.head_eq_of_cons_eq heq.symm).symm h2
  · rename_i c1 r1 heq
    obtain ⟨rfl, rfl⟩ := List.cons_eq_cons.mp heq
    rfl
  · rename_i heq
    exact absurd heq (by simp)

/-- Parsing one escaped character undoes `escChar`. -/
theorem parseStrBody_escChar (c : Char) (acc rest : List Char) :
    parseStrBody acc (escChar c ++ rest) = parseStrBody (c :: acc) rest := by
  rw [escChar]
  split_ifs with h1 h2 h3 h4 h5 h6 h7 h8
  · subst h1; rfl
  · subst h2; rfl
  · subst h3; rfl
  · subst h4; rfl
  · subst h5; rfl
  · have hc : c = Char.ofNat 8 := by
      have := Char.ofNat_toNat c
      rw [h6] at this
      exact this.symm
    subst hc; rfl
  · have hc : c = Char.ofNat 12 := by
      have := Char.ofNat_toNat c
      rw [h7] at this
      exact this.symm
    subst hc; rfl
  · simp only [List.cons_append, List.nil_append, parseStrBody]
    rw [show hexNib '0' = some 0 from by decide,
        hexNib_hexDig (c.toNat / 16) (by omega), hexNib_hexDig (c.toNat % 16) (by omega)]
    simp only
    rw [show ((0 * 16 + 0) * 16 + c.toNat / 16) * 16 + c.toNat % 16 = c.toNat from by omega,
        Char.ofNat_toNat]
    rfl
  · simp only [List.cons_append, List.nil_append]
    exact parseStrBody_plain h1 h2 acc rest

/-- Parsing an escaped run stops exactly at the closing quote, returning the
original characters. -/
theorem parseStrBody_escAll (s : List Char) : ∀ acc rest,
    parseStrBody acc (escAll s ++ '"' :: rest) = some (acc.reverse ++ s, rest) := by
  induction s with
  | nil => intro acc rest; simp [escAll, parseStrBody]
  | cons c cs ih =>
      intro acc rest
      rw [escAll, List.append_assoc, parseStrBody_escChar, ih]
      simp

/-- A non-whitespace head stops `skipWs`. -/
theorem skipWs_cons_nws {c : Char} (h : isWsC c = false) (t : List Char) :
    skipWs (c :: t) = c :: t := by
  simp [skipWs, h]

/-- A leading space is skipped. -/
theorem skipWs_space (z : List Char) : skipWs (' ' :: z) = skipWs z := by
  simp [skipWs, isWsC]

/-- Values: `parseVal` only looks at its input through `skipWs`. -/
theorem parseVal_congr {cs cs' : List Char} (h : skipWs cs = skipWs cs') :
    ∀ fuel, parseVal fuel cs = parseVal fuel cs'
  | 0 => rfl
  | fuel + 1 => by
      simp only [parseVal]
      rw [h]

/-- Items: `parseItems` only looks at its input through `skipWs`. -/
theorem parseItems_congr {cs cs' : List Char} (h : skipWs cs = skipWs cs') :
    ∀ fuel, parseItems fuel cs = parseItems fuel cs'
  | 0 => rfl
  | fuel + 1 => by
      simp only [parseItems]
      rw [parseVal_congr h fuel]

/-- Members: `parseFields` only looks at its input through `skipWs`. -/
theorem parseFields_congr {cs cs' : List Char} (h : skipWs cs = skipWs cs') :
    ∀ fuel, parseFields fuel cs = parseFields fuel cs'
  | 0 => rfl
  | fuel + 1 => by
      simp only [parseFields]
      rw [h]

/-- Every rendered value starts with a character that is neither whitespace
nor a closing bracket or brace. -/
theorem encVal_head (v : JVal) :
    ∃ c t, encVal v = c :: t ∧ isWsC c = false ∧ c ≠ ']' ∧ c ≠ '}' := by
  cases v with
  | jnull => exact ⟨_, _, rfl, by decide, by decide, by decide⟩
  | jbool b => cases b <;> exact ⟨_, _, rfl, by decide, by decide, by decide⟩
  | jstr s => exact ⟨_, _, rfl, by decide, by decide, by decide⟩
  | jarr vs => exact ⟨_, _, rfl, by decide, by decide, by decide⟩
  | jobj fs => exact ⟨_, _, rfl, by decide, by decide, by decide⟩
  | jint i =>
      by_cases hi : i < 0
      · refine ⟨'-', natChars i.natAbs, ?_, by decide, by decide, by decide⟩
        simp [encVal, intChars, hi]
      · obtain ⟨c, t, hn, hc⟩ := natChars_cons i.natAbs
        obtain ⟨hws, _, _, _, _, hr, hb, _⟩ := isDig_ne hc
        refine ⟨c, t, ?_, hws, hr, hb⟩
        simp [encVal, intChars, hi, hn]

/-- Whitespace skipping is the identity in front of any rendered value. -/
theorem skipWs_encVal (v : JVal) (x : List Char) :
    skipWs (encVal v ++ x) = encVal v ++ x := by
  obtain ⟨c, t, hv, hws, _, _⟩ := encVal_head v
  rw [hv, List.cons_append, skipWs_cons_nws hws]


theorem parseVal_numCase (f : Nat) {c : Char} {t : List Char}
    (hws : isWsC c = false) (hn : c ≠ 'n') (ht : c ≠ 't') (hf : c ≠ 'f')
    (hq : c ≠ '"') (hlb : c ≠ '[') (hob : c ≠ '{') (hnum : (c = '-' || isDig c) = true) :
    parseVal (f + 1) (c :: t)
      = match parseNumLit (c :: t) with
        | some (n, r1) => some (.jint n, r1)
        | none => none := by
  simp only [parseVal, skipWs_cons_nws hws]
  simp [hn, ht, hf, hq, hlb, hob, hnum]


theorem intStop_cons {c : Char} (h : (isDig c || c = '.' || c = 'e' || c = 'E') = false)
    (t : List Char) : intStop (c :: t) = true := by
  simp only [intStop, h, Bool.not_false]

theorem parseVal_arrCase (f : Nat) {z : List Char} {c : Char} {t : List Char}
    (hz : skipWs z = c :: t) (hc : c ≠ ']') :
    parseVal (f + 1) ('[' :: z)
      = match parseItems f (c :: t) with
        | some (vs, r2) => some (.jarr vs, r2)
        | none => none := by
  simp only [parseVal, skipWs_cons_nws (by decide : isWsC '[' = false)]
  rw [hz]
  simp [hc]

theorem parseVal_objCase (f : Nat) {z : List Char} {t : List Char}
    (hz : skipWs z = '"' :: t) :
    parseVal (f + 1) ('{' :: z)
      = match parseFields f ('"' :: t) with
        | some (fs, r2) => some (.jobj fs, r2)
        | none => none := by
  simp only [parseVal, skipWs_cons_nws (by decide : isWsC '{' = false)]
  rw [hz]
  simp

theorem parseVal_int (i : Int) (f : Nat) {rest : List Char} (hr : intStop rest = true) :
    parseVal (f + 1) (intChars i ++ rest) = some (.jint i, rest) := by
  by_cases hi : i < 0
  · have harg : intChars i ++ rest = '-' :: (natChars i.natAbs ++ rest) := by
      simp [intChars, hi]
    rw [harg, parseVal_numCase f (by decide) (by decide) (by decide) (by decide)
          (by decide) (by decide) (by decide) (by decide), ← harg,
        parseNumLit_intChars i hr]
  · obtain ⟨c, t, hn, hc⟩ := natChars_cons i.natAbs
    obtain ⟨hws, _, _, _, _, _, _, _, hn', ht', hf', hq', hlb', hob'⟩ := isDig_ne hc
    have harg : intChars i ++ rest = c :: (t ++ rest) := by
      simp [intChars, hi, hn]
    rw [harg, parseVal_numCase f hws hn' ht' hf' hq' hlb' hob' (by simp [hc]), ← harg,
        parseNumLit_intChars i hr]

mutual
theorem rt_val : ∀ (v : JVal) (f : Nat) (rest : List Char),
    (encVal v).length < f → intStop rest = true →
    parseVal f (encVal v ++ rest) = some (v, rest)
  | .jnull, f, rest, hf, _ => by
      cases f with
      | zero => exact absurd hf (Nat.not_lt_zero _)
      | succ f => simp [encVal, parseVal, skipWs, isWsC]
  | .jbool b, f, rest, hf, _ => by
      cases f with
      | zero => exact absurd hf (Nat.not_lt_zero _)
      | succ f => cases b <;> simp [encVal, parseVal, skipWs, isWsC]
  | .jint i, f, rest, hf, hr => by
      cases f with
      | zero => exact absurd hf (Nat.not_lt_zero _)
      | succ f =>
          have he : encVal (.jint i) = intChars i := rfl
          rw [he, parseVal_int i f hr]
  | .jstr s, f, rest, hf, _ => by
      cases f with
      | zero => exact absurd hf (Nat.not_lt_zero _)
      | succ f =>
          have harg : encVal (.jstr s) ++ rest = '"' :: (escAll s ++ ('"' :: rest)) := by
            simp [encVal, encStr]
          rw [harg]
          simp [parseVal, skipWs, isWsC, parseStrBody_escAll]
  | .jarr [], f, rest, hf, _ => by
      cases f with
      | zero => exact absurd hf (Nat.not_lt_zero _)
      | succ f => simp [encVal, encItems, parseVal, skipWs, isWsC]
  | .jarr (v :: vs), f, rest, hf, _ => by
      cases f with
      | zero => exact absurd hf (Nat.not_lt_zero _)
      | succ f =>
          obtain ⟨c, t, hv, hws, hcr, _⟩ := encVal_head v
          have hz : encItems (v :: vs) ++ ']' :: rest
              = c :: (t ++ (encItemsTail vs ++ ']' :: rest)) := by
            simp only [encItems, hv, List.cons_append, List.append_assoc]
          have harg : encVal (.jarr (v :: vs)) ++ rest
              = '[' :: (encItems (v :: vs) ++ ']' :: rest) := by
            simp [encVal]
          have hfl : (encItems (v :: vs)).length + 1 < f := by
            simp only [encVal, List.length_cons, List.length_append, List.length_singleton] at hf
            omega
          rw [harg, parseVal_arrCase f (by rw [hz] ; exact skipWs_cons_nws hws _) hcr, ← hz,
              rt_items v vs f rest hfl]
  | .jobj [], f, rest, hf, _ => by
      cases f with
      | zero => exact absurd hf (Nat.not_lt_zero _)
      | succ f => simp [encVal, encFields, parseVal, skipWs, isWsC]
  | .jobj ((k, v) :: fs), f, rest, hf, _ => by
      cases f with
      | zero => exact absurd hf (Nat.not_lt_zero _)
      | succ f =>
          have hz : encFields ((k, v) :: fs) ++ '}' :: rest
              = '"' :: ((escAll k ++ ('"' :: (':' :: ' ' :: (encVal v
                  ++ (encFieldsTail fs ++ '}' :: rest)))))) := by
            simp only [encFields, encStr, List.cons_append, List.append_assoc, List.nil_append]
          have harg : encVal (.jobj ((k, v) :: fs)) ++ rest
              = '{' :: (encFields ((k, v) :: fs) ++ '}' :: rest) := by
            simp [encVal]
          have hfl : (encFields ((k, v) :: fs)).length + 1 < f := by
            simp only [encVal, List.length_cons, List.length_append, List.length_singleton] at hf
            omega
          rw [harg, parseVal_objCase f (by rw [hz]; exact skipWs_cons_nws (by decide) _), ← hz,
              rt_fields k v fs f rest hfl]
termination_by v _ _ _ _ => sizeOf v
theorem rt_items : ∀ (v : JVal) (vs : List JVal) (f : Nat) (rest : List Char),
    (encItems (v :: vs)).length + 1 < f →
    parseItems f (encItems (v :: vs) ++ ']' :: rest) = some (v :: vs, rest)
  | v, [], f, rest, hf => by
      cases f with
      | zero => exact absurd hf (Nat.not_lt_zero _)
      | succ f =>
          have harg : encItems (v :: []) ++ ']' :: rest = encVal v ++ ']' :: rest := by
            simp [encItems, encItemsTail]
          have hfv : (encVal v).length < f := by
            simp only [encItems, encItemsTail, List.append_nil, List.length_append] at hf
            omega
          rw [harg]
          simp only [parseItems, rt_val v f (']' :: rest) hfv (intStop_cons (by decide) _)]
          simp [skipWs, isWsC]
  | v, x :: xs, f, rest, hf => by
      cases f with
      | zero => exact absurd hf (Nat.not_lt_zero _)
      | succ f =>
          simp only [encItems, encItemsTail, List.length_append, List.length_cons] at hf
          have hfv : (encVal v).length < f := by omega
          have hfx : (encItems (x :: xs)).length + 1 < f := by
            simp only [encItems, List.length_append]
            omega
          have harg : encItems (v :: x :: xs) ++ ']' :: rest
              = encVal v ++ (',' :: ' ' :: (encItems (x :: xs) ++ ']' :: rest)) := by
            simp only [encItems, encItemsTail, List.cons_append, List.append_assoc]
          have hv := rt_val v f (',' :: ' ' :: (encItems (x :: xs) ++ ']' :: rest)) hfv
            (intStop_cons (by decide) _)
          have hrec := rt_items x xs f rest hfx
          have hcongr : parseItems f (' ' :: (encItems (x :: xs) ++ ']' :: rest))
              = parseItems f (encItems (x :: xs) ++ ']' :: rest) :=
            parseItems_congr (skipWs_space _) f
          rw [harg]
          simp only [parseItems, hv]
          rw [skipWs_cons_nws (by decide : isWsC ',' = false)]
          simp only [hcongr, hrec]
termination_by v vs _ _ _ => sizeOf v + sizeOf vs
theorem rt_fields : ∀ (k : List Char) (v : JVal) (fs : List (List Char × JVal))
    (f : Nat) (rest : List Char),
    (encFields ((k, v) :: fs)).length + 1 < f →
    parseFields f (encFields ((k, v) :: fs) ++ '}' :: rest) = some ((k, v) :: fs, rest)
  | k, v, [], f, rest, hf => by
      cases f with
      | zero => exact absurd hf (Nat.not_lt_zero _)
      | succ f =>
          simp only [encFields, encFieldsTail, encStr, List.append_nil, List.length_append,
            List.length_cons] at hf
          have hfv : (encVal v).length < f := by omega
          have harg : encFields ((k, v) :: []) ++ '}' :: rest
              = '"' :: (escAll k ++ ('"' :: (':' :: ' ' :: (encVal v ++ '}' :: rest)))) := by
            simp [encFields, encFieldsTail, encStr]
          have hv := rt_val v f ('}' :: rest) hfv (intStop_cons (by decide) _)
          have hcongr : parseVal f (' ' :: (encVal v ++ '}' :: rest))
              = parseVal f (encVal v ++ '}' :: rest) :=
            parseVal_congr (skipWs_space _) f
          rw [harg]
          simp only [parseFields]
          rw [skipWs_cons_nws (by decide : isWsC '"' = false)]
          simp only [parseStrBody_escAll, List.reverse_nil, List.nil_append]
          rw [skipWs_cons_nws (by decide : isWsC ':' = false)]
          simp only [hcongr, hv]
          simp [skipWs, isWsC]
  | k, v, (k2, v2) :: fs2, f, rest, hf => by
      cases f with
      | zero => exact absurd hf (Nat.not_lt_zero _)
      | succ f =>
          simp only [encFields, encFieldsTail, encStr, List.length_append, List.length_cons] at hf
          have hfv : (encVal v).length < f := by omega
          have hfx : (encFields ((k2, v2) :: fs2)).length + 1 < f := by
            simp only [encFields, encStr, List.length_append, List.length_cons]
            omega
          have harg : encFields ((k, v) :: (k2, v2) :: fs2) ++ '}' :: rest
              = '"' :: (escAll k ++ ('"' :: (':' :: ' ' :: (encVal v
                  ++ (',' :: ' ' :: (encFields ((k2, v2) :: fs2) ++ '}' :: rest)))))) := by
            simp only [encFields, encFieldsTail, encStr, List.cons_append, List.append_assoc,
              List.nil_append]
          have hv := rt_val v f (',' :: ' ' :: (encFields ((k2, v2) :: fs2) ++ '}' :: rest)) hfv
            (intStop_cons (by decide) _)
          have hrec := rt_fields k2 v2 fs2 f rest hfx
          have hcongr : parseFields f (' ' :: (encFields ((k2, v2) :: fs2) ++ '}' :: rest))
              = parseFields f (encFields ((k2, v2) :: fs2) ++ '}' :: rest) :=
            parseFields_congr (skipWs_space _) f
          have hcv : parseVal f (' ' :: (encVal v
              ++ (',' :: ' ' :: (encFields ((k2, v2) :: fs2) ++ '}' :: rest))))
              = parseVal f (encVal v
              ++ (',' :: ' ' :: (encFields ((k2, v2) :: fs2) ++ '}' :: rest))) :=
            parseVal_congr (skipWs_space _) f
          rw [harg]
          simp only [parseFields]
          rw [skipWs_cons_nws (by decide : isWsC '"' = false)]
          simp only [parseStrBody_escAll, List.reverse_nil, List.nil_append]
          rw [skipWs_cons_nws (by decide : isWsC ':' = false)]
          simp only [hcv, hv]
          rw [skipWs_cons_nws (by decide : isWsC ',' = false)]
          simp only [hcongr, hrec]
termination_by k v fs _ _ _ => sizeOf v + sizeOf fs
end

theorem json_loads_dumps (v : JVal) : json_loads (json_dumps v) = some v := by
  have h := rt_val v ((encVal v).length + 1) [] (by omega) rfl
  rw [List.append_nil] at h
  rw [json_dumps, json_loads, h]
  simp [skipWs]

/-! ### Helper observations on traces -/

/-- The outbound events contained in a trace, in order. -/
def emitted : List Action → List OutMsg
  | [] => []
  | .emit m :: t => m :: emitted t
  | .groupAdd _ _ :: t => emitted t
  | .groupDiscard _ _ :: t => emitted t
  | .hookConnect :: t => emitted t
  | .hookDisconnect _ :: t => emitted t
  | .stop :: t => emitted t

theorem emitted_append (a b : List Action) : emitted (a ++ b) = emitted a ++ emitted b := by
  induction a with
  | nil => rfl
  | cons x t ih => cases x <;> simp [emitted, ih]

theorem emitted_map_emit (es : List OutMsg) : emitted (es.map .emit) = es := by
  induction es with
  | nil => rfl
  | cons m t ih => simp [emitted, ih]

theorem emitted_groupAdds (G : List String) (n : String) :
    emitted (G.map fun g => Action.groupAdd g n) = [] := by
  induction G with
  | nil => rfl
  | cons g t ih => simp [emitted, ih]

theorem emitted_groupDiscards (G : List String) (n : String) :
    emitted (G.map fun g => Action.groupDiscard g n) = [] := by
  induction G with
  | nil => rfl
  | cons g t ih => simp [emitted, ih]

/-- A missing key in the field list is exactly `dictGet` returning nothing
(`k in d` agrees with `d[k]` succeeding). -/
theorem dictGet_none_iff (fs : List (List Char × JVal)) (k : List Char) :
    dictGet fs k = none ↔ dictHas fs k = false := by
  induction fs with
  | nil => simp [dictGet, dictHas]
  | cons kv fs ih =>
      obtain ⟨k1, v1⟩ := kv
      rw [dictGet]
      cases h : dictGet fs k with
      | some r =>
          simp only [dictHas, List.any_cons] at *
          simp [h, ← ih]
      | none =>
          simp only [dictHas, List.any_cons] at *
          by_cases hk : k1 = k <;> simp [hk, ← ih, h]

/-- Events of type `websocket.send`. -/
def isSendEvent : OutMsg → Bool
  | .sendText _ => true
  | .sendBytes _ => true
  | _ => false

/-! ### The claims -/

/-- C1: for a physical receive decoding to an envelope with `stream` value `s`
and `payload` value `P`, `receive_json` hands the stream-`s` child a
`websocket.receive` event whose text decodes back to `P`; and a child send
whose text decodes to `V`, intercepted by `websocket_send` for stream `name`,
is re-emitted as one physical outbound text send whose JSON text decodes to
the envelope with stream `name` and payload `V`. -/
theorem C1_demux_routing (fields : List (List Char × JVal)) (s P : JVal)
    (hs : dictGet fields streamKey = some s)
    (hp : dictGet fields payloadKey = some P)
    (t name : List Char) (V : JVal) (hv : json_loads t = some V) :
    (∃ msg, demux_receive_json (.jobj fields) = .ok (s, .receiveText msg)
        ∧ json_loads msg = some P)
    ∧ (∃ out, demux_websocket_send (.sendText t) name = .ok (.sendText out)
        ∧ json_loads out = some (.jobj [(streamKey, .jstr name), (payloadKey, V)])) := by
  constructor
  · exact ⟨json_dumps P, by simp [demux_receive_json, hs, hp], json_loads_dumps P⟩
  · exact ⟨json_dumps (.jobj [(streamKey, .jstr name), (payloadKey, V)]),
      by simp [demux_websocket_send, hv], json_loads_dumps _⟩

/-- Witness for C1 at the spec's own example: envelope stream `"a"`, payload
`1`, and a child send of text `2`. -/
theorem C1_demux_routing_witness :
    (dictGet [(streamKey, JVal.jstr ['a']), (payloadKey, JVal.jint 1)] streamKey
        = some (.jstr ['a'])
      ∧ dictGet [(streamKey, JVal.jstr ['a']), (payloadKey, JVal.jint 1)] payloadKey
        = some (.jint 1)
      ∧ json_loads ['2'] = some (.jint 2))
    ∧ ((∃ msg, demux_receive_json
          (.jobj [(streamKey, JVal.jstr ['a']), (payloadKey, JVal.jint 1)])
          = .ok (.jstr ['a'], .receiveText msg) ∧ json_loads msg = some (.jint 1))
      ∧ (∃ out, demux_websocket_send (.sendText ['2']) ['a'] = .ok (.sendText out)
          ∧ json_loads out
            = some (.jobj [(streamKey, .jstr ['a']), (payloadKey, .jint 2)]))) :=
  ⟨⟨rfl, rfl, rfl⟩, C1_demux_routing [(streamKey, JVal.jstr ['a']), (payloadKey, JVal.jint 1)]
    (JVal.jstr ['a']) (JVal.jint 1) rfl rfl ['2'] ['a'] (JVal.jint 2) rfl⟩

/-- C2: content that is not an object containing both a `stream` and a
`payload` key makes `receive_json` raise the protocol error (the
`ValueError` below) instead of forwarding anything to a child. -/
theorem C2_malformed_envelope (content : JVal)
    (h : ∀ fields, content = .jobj fields →
        (dictHas fields streamKey && dictHas fields payloadKey) = false) :
    demux_receive_json content
      = .error (.valueError "Invalid multiplexed **frame received (no channel/payload key)") := by
  cases content with
  | jobj fields =>
      have hb := h fields rfl
      rw [Bool.and_eq_false_iff] at hb
      rw [demux_receive_json]
      rcases hb with hb | hb
      · rw [(dictGet_none_iff fields streamKey).mpr hb]
        try rfl
      · rw [(dictGet_none_iff fields payloadKey).mpr hb]
        rcases hs : dictGet fields streamKey with _ | s <;> rfl
  | jnull => rfl
  | jbool b => rfl
  | jint n => rfl
  | jstr s => rfl
  | jarr items => rfl

/-- Witness for C2 at the spec's test case, the envelope missing `payload`. -/
theorem C2_malformed_envelope_witness :
    (∀ fields, JVal.jobj [(streamKey, JVal.jstr ['a'])] = .jobj fields →
        (dictHas fields streamKey && dictHas fields payloadKey) = false)
    ∧ demux_receive_json (.jobj [(streamKey, JVal.jstr ['a'])])
      = .error (.valueError "Invalid multiplexed **frame received (no channel/payload key)") := by
  have h : ∀ fields, JVal.jobj [(streamKey, JVal.jstr ['a'])] = .jobj fields →
      (dictHas fields streamKey && dictHas fields payloadKey) = false := by
    intro fields heq
    injection heq with h1
    subst h1
    rfl
  exact ⟨h, C2_malformed_envelope _ h⟩

/-- C3: on a physical disconnect the demultiplexer first fans the disconnect
out to every running child, then joins the child tasks bounded by the fixed
`application_close_timeout = 5`, and only then does the inherited disconnect
path (containing the parent `disconnect` hook) run; the result is a normal
trace — no error reaches the caller — whether or not the wait timed out. -/
theorem C3_disconnect_fanout (children : List (List Char)) (timedOut : Bool)
    (code : Int) (G : List String) (n : String) (dh : List OutMsg) :
    ∃ rest,
      demux_websocket_disconnect children timedOut code G true n dh
        = .ok ((children.map fun s => .childDisconnect s code)
            ++ DemuxAction.waitChildren application_close_timeout timedOut :: rest)
      ∧ DemuxAction.parent (.hookDisconnect code) ∈ rest
      ∧ application_close_timeout = 5 := by
  refine ⟨((G.map fun g => Action.groupDiscard g n)
      ++ Action.hookDisconnect code :: (dh.map .emit ++ [.stop])).map .parent, ?_, ?_, rfl⟩
  · simp [demux_websocket_disconnect, websocket_disconnect, send_to_all_upstream_disconnect]
  · simp

/-- C4: raising the accept signal from the `connect` hook makes the machine
emit `accept`, raising the deny signal makes it emit a bare `close`, and the
default `connect` hook (which returns normally) emits `accept`. -/
theorem C4_connect_signals (G : List String) (n : String) (es : List OutMsg) :
    (websocket_connect G true n (.raisesAccept es)).map emitted = .ok (es ++ [.accept])
    ∧ (websocket_connect G true n (.raisesDeny es)).map emitted = .ok (es ++ [.close none])
    ∧ (websocket_connect G true n defaultConnect).map emitted = .ok [.accept] := by
  refine ⟨?_, ?_, ?_⟩ <;>
    simp [websocket_connect, defaultConnect, connectBlock, Except.map, emitted_append, emitted,
      emitted_groupAdds, emitted_map_emit]

/-- C5: on connect every declared group is joined, in order, strictly before
the `connect` hook runs and with no further backend group call afterwards; on
disconnect the same holds for the discards and the `disconnect` hook; and
with no declared groups the lifecycle performs zero backend group calls. -/
theorem C5_group_ordering (G : List String) (n : String) (hook : HookBehavior)
    (code : Int) (dh : List OutMsg) (s : Bool) :
    (∃ rest, websocket_connect G true n hook
        = .ok ((G.map fun g => Action.groupAdd g n) ++ Action.hookConnect :: rest)
      ∧ ∀ a ∈ rest, isGroupCall a = false)
    ∧ (∃ rest, websocket_disconnect G true n code dh
        = .ok ((G.map fun g => Action.groupDiscard g n) ++ Action.hookDisconnect code :: rest)
      ∧ ∀ a ∈ rest, isGroupCall a = false)
    ∧ (websocket_connect [] s n hook).map (fun t => t.filter isGroupCall) = .ok []
    ∧ (websocket_disconnect [] s n code dh).map (fun t => t.filter isGroupCall) = .ok [] := by
  have hemits : ∀ (es : List OutMsg), ∀ a ∈ es.map Action.emit, isGroupCall a = false := by
    intro es a ha
    obtain ⟨m, _, rfl⟩ := List.mem_map.mp ha
    rfl
  have htail : ∀ h : HookBehavior, ∃ rest, connectBlock h = Action.hookConnect :: rest
      ∧ ∀ a ∈ rest, isGroupCall a = false := by
    intro h
    cases h with
    | returns es => exact ⟨es.map .emit, rfl, hemits es⟩
    | raisesAccept es =>
        refine ⟨es.map Action.emit ++ [Action.emit OutMsg.accept], rfl, ?_⟩
        intro a ha
        rcases List.mem_append.mp ha with h | h
        · exact hemits es a h
        · rw [List.mem_singleton] at h; subst h; rfl
    | raisesDeny es =>
        refine ⟨es.map Action.emit ++ [Action.emit (OutMsg.close none)], rfl, ?_⟩
        intro a ha
        rcases List.mem_append.mp ha with h | h
        · exact hemits es a h
        · rw [List.mem_singleton] at h; subst h; rfl
  obtain ⟨rest, hcb, hrest⟩ := htail hook
  have hdtail : ∀ a ∈ dh.map Action.emit ++ [Action.stop], isGroupCall a = false := by
    intro a ha
    rcases List.mem_append.mp ha with h | h
    · exact hemits dh a h
    · rw [List.mem_singleton] at h; subst h; rfl
  refine ⟨⟨rest, ?_, hrest⟩, ⟨dh.map .emit ++ [.stop], ?_, hdtail⟩, ?_, ?_⟩
  · simp [websocket_connect, hcb]
  · simp [websocket_disconnect]
  · have h1 : websocket_connect [] s n hook = .ok (connectBlock hook) := by
      simp [websocket_connect]
    have hnil : List.filter isGroupCall (connectBlock hook) = [] := by
      rw [List.filter_eq_nil_iff]
      intro a ha
      rw [hcb] at ha
      rcases List.mem_cons.mp ha with h | h
      · subst h; simp [isGroupCall]
      · simp [hrest a h]
    simp [h1, Except.map, hnil]
  · have h2 : websocket_disconnect [] s n code dh
        = .ok (Action.hookDisconnect code :: (dh.map Action.emit ++ [Action.stop])) := by
      simp [websocket_disconnect]
    have hnil : List.filter isGroupCall
        (Action.hookDisconnect code :: (dh.map Action.emit ++ [Action.stop])) = [] := by
      rw [List.filter_eq_nil_iff]
      intro a ha
      rcases List.mem_cons.mp ha with h | h
      · subst h; simp [isGroupCall]
      · simp [hdtail a h]
    simp [h2, Except.map, hnil]

/-- C6: with a non-empty declared group list and a channel layer without group
support, both the connect and the disconnect handler fail eagerly — their very
result is the `InvalidChannelLayerError` — before any hook runs. -/
theorem C6_layer_unconfigured (G : List String) (hG : G ≠ []) (n : String)
    (hook : HookBehavior) (code : Int) (dh : List OutMsg) :
    websocket_connect G false n hook
      = .error (.invalidChannelLayerError "BACKEND is unconfigured or doesn't support groups")
    ∧ websocket_disconnect G false n code dh
      = .error (.invalidChannelLayerError "BACKEND is unconfigured or doesn't support groups") := by
  constructor <;> simp [websocket_connect, websocket_disconnect, hG]

/-- Witness for C6 with one declared group. -/
theorem C6_layer_unconfigured_witness :
    (["room"] ≠ ([] : List String))
    ∧ (websocket_connect ["room"] false "chan" defaultConnect
        = .error (.invalidChannelLayerError "BACKEND is unconfigured or doesn't support groups")
      ∧ websocket_disconnect ["room"] false "chan" 1000 []
        = .error (.invalidChannelLayerError "BACKEND is unconfigured or doesn't support groups")) :=
  ⟨by simp, C6_layer_unconfigured ["room"] (by simp) "chan" defaultConnect 1000 []⟩

/-- C7: a receive with bytes data and no text data on a JSON-variant consumer
raises the no-text-section `ValueError`; no `receive_json` dispatch happens
(the result is an error, not a dispatched content). -/
theorem C7_binary_rejected (b : List Nat) :
    json_receive none (some b)
      = .error (.valueError "No text section for incoming WebSocket frame!") := rfl

/-- C8 (amended): decoding an encoded value recovers it structurally, and
encode-after-decode is the identity on texts in the encoder's image; on an
arbitrary JSON text encode-after-decode is _not_ the identity (see the
counterexample). -/
theorem C8_roundtrip (v : JVal) :
    json_loads (json_dumps v) = some v
    ∧ (json_loads (json_dumps v)).map json_dumps = some (json_dumps v) := by
  have h := json_loads_dumps v
  exact ⟨h, by rw [h]; rfl⟩

/-- C8 counterexample: the JSON text `[1,2]` decodes, but re-encoding the
result yields `[1, 2]` (Python's default `", "` separator), not the original
text, so `encode (decode x) = x` fails for this JSON-representable `x`. -/
theorem C8_not_text_identity :
    json_loads ['[', '1', ',', '2', ']'] = some (.jarr [.jint 1, .jint 2])
    ∧ json_dumps (.jarr [.jint 1, .jint 2]) = ['[', '1', ',', ' ', '2', ']']
    ∧ ['[', '1', ',', ' ', '2', ']'] ≠ ['[', '1', ',', '2', ']'] :=
  ⟨rfl, by simp [json_dumps, encVal, encItems, encItemsTail, intChars, natChars], by decide⟩

/-- C9: `send` with neither payload raises `ValueError` and emits nothing
(the error return carries no events); with a text or bytes payload exactly
one `websocket.send` event, carrying that payload, is emitted — whatever the
`close` argument. -/
theorem C9_send_payload (t : List Char) (b : List Nat) (bd : Option (List Nat))
    (close : SendClose) :
    consumer_send none none close
      = .error (.valueError "You must pass one of bytes_data or text_data")
    ∧ (consumer_send (some t) bd close).map (fun l => l.filter isSendEvent)
      = .ok [.sendText t]
    ∧ (consumer_send none (some b) close).map (fun l => l.filter isSendEvent)
      = .ok [.sendBytes b] := by
  refine ⟨rfl, ?_, ?_⟩ <;>
    cases hc : sendCloseTruthy close <;>
      cases close <;>
        simp_all [consumer_send, isSendEvent, closeEventOf, sendCloseTruthy, Except.map]

/-- C10: an empty-string `text_data` with no bytes is falsy under the `if
text_data:` dispatch, so the JSON variants' `receive` raises the
no-text-section error instead of decoding the empty text. -/
theorem C10_empty_text_rejected :
    json_receive (some []) none
      = .error (.valueError "No text section for incoming WebSocket frame!") := rfl

end Channels
